import Mathlib

/-!
Verification of the room-reservation system in `reservas.py`.

The embedding models, from the source:
  * the calendar arithmetic of `datetime.date` (lexicographic comparison,
    `timedelta(days=1)` successor, `weekday()`), on a proleptic Gregorian
    calendar;
  * the decimal rendering used by `f"R{res_id:06d}"` and by
    `strftime("%m-%d-%Y")` (zero-padded fields);
  * the SQLite store (`clientes`, `salas`, `reservaciones` tables) as lists
    of rows with explicit AUTOINCREMENT counters, the UNIQUE constraints
    checked at insert/update time, and `ORDER BY` as a sort;
  * the interactive flows of `registrar_reservacion`, `editar_nombre_evento`
    and `consultar_reservaciones`, with each `input()` loop modelled as a
    list of already-read (and, where the code strips, already-stripped)
    inputs consumed in order.
-/

/-- Fixed shift enumeration, `TURNOS = ["Matutino", "Vespertino", "Nocturno"]`. -/
def TURNOS : List String := ["Matutino", "Vespertino", "Nocturno"]

/-- Calendar date, as produced by `datetime.strptime(texto, "%m-%d-%Y").date()`. -/
structure Fecha where
  year : Nat
  month : Nat
  day : Nat
deriving DecidableEq

/-- Gregorian leap-year rule used by `datetime.date`. -/
def isLeap (y : Nat) : Bool := (y % 4 == 0 && y % 100 != 0) || y % 400 == 0

/-- Days in month `m` (1-12) of a year with leap flag `leap`; 0 out of range. -/
def monthLen (leap : Bool) (m : Nat) : Nat :=
  match m with
  | 1 => 31
  | 2 => if leap then 29 else 28
  | 3 => 31
  | 4 => 30
  | 5 => 31
  | 6 => 30
  | 7 => 31
  | 8 => 31
  | 9 => 30
  | 10 => 31
  | 11 => 30
  | 12 => 31
  | _ => 0

/-- Days in the months of the year strictly before month `m`. -/
def daysBeforeMonth (leap : Bool) : Nat → Nat
  | 0 => 0
  | m + 1 => daysBeforeMonth leap m + monthLen leap m

/-- Leap years strictly before year `y` (closed form, as a `datetime`
implementation would compute it). -/
def leapsBefore (y : Nat) : Int :=
  ((y - 1) / 4 : Nat) - ((y - 1) / 100 : Nat) + ((y - 1) / 400 : Nat)

/-- Linear day count of a date (shifted `datetime.date.toordinal`). -/
def toOrdinal (x : Fecha) : Int :=
  365 * (x.year : Int) + leapsBefore x.year
    + (daysBeforeMonth (isLeap x.year) x.month : Nat) + (x.day : Nat)

/-- Day of week as in `datetime.date.weekday()`: Monday = 0, ..., Sunday = 6.
The constant 5 calibrates the shifted ordinal so that 2024-01-01 (a Monday)
gets 0. -/
def weekday (x : Fecha) : Nat := ((toOrdinal x + 5) % 7).toNat

/-- In-range date: what `datetime.date` accepts as (year, month, day). -/
def ValidFecha (x : Fecha) : Prop :=
  1 ≤ x.year ∧ 1 ≤ x.month ∧ x.month ≤ 12 ∧ 1 ≤ x.day
    ∧ x.day ≤ monthLen (isLeap x.year) x.month

instance : DecidablePred ValidFecha := fun x => by unfold ValidFecha; infer_instance

/-- Successor date, `d + timedelta(days=1)`. -/
def nextDay (x : Fecha) : Fecha :=
  if x.day < monthLen (isLeap x.year) x.month then ⟨x.year, x.month, x.day + 1⟩
  else if x.month < 12 then ⟨x.year, x.month + 1, 1⟩
  else ⟨x.year + 1, 1, 1⟩

/-- Date plus `n` days, `d + timedelta(days=n)`. -/
def addDays (x : Fecha) : Nat → Fecha
  | 0 => x
  | n + 1 => nextDay (addDays x n)

/-- Strict comparison of `datetime.date` values (lexicographic on
year, month, day). -/
def fechaBlt (a b : Fecha) : Bool :=
  decide (a.year < b.year)
    || (a.year == b.year
        && (decide (a.month < b.month)
            || (a.month == b.month && decide (a.day < b.day))))

/-- Non-strict comparison of `datetime.date` values. -/
def fechaBle (a b : Fecha) : Bool := !fechaBlt b a

/-- Decimal digit as a character, `'0'` for 0 through `'9'` for 9. -/
def digitChar (d : Nat) : Char := Char.ofNat (48 + d)

/-- Decimal digits of `n`, most significant first, `[]` for 0; the fuel
argument makes the recursion structural (`n ≤ fuel` suffices). -/
def natCharsAux : Nat → Nat → List Char
  | 0, _ => []
  | fuel + 1, n =>
    if n = 0 then [] else natCharsAux fuel (n / 10) ++ [digitChar (n % 10)]

/-- Decimal rendering of `n` as digit characters (empty for 0). -/
def natDecimalChars (n : Nat) : List Char := natCharsAux n n

/-- Left-pad a digit string with `'0'` to width `w`, as Python's
zero-padded field formatting does. -/
def padLeft (w : Nat) (l : List Char) : List Char :=
  List.replicate (w - l.length) '0' ++ l

/-- Folio derived from a reservation key: `generar_folio`,
`f"R{res_id:06d}"`. -/
def generar_folio (res_id : Nat) : String :=
  String.mk ('R' :: padLeft 6 (natDecimalChars res_id))

/-- Date rendering `d.strftime("%m-%d-%Y")` (`DATE_FORMAT = "%m-%d-%Y"`):
two-digit month, two-digit day, year (4-digit-padded; all stored years have
four digits). -/
def strftime_mdY (x : Fecha) : String :=
  String.mk (padLeft 2 (natDecimalChars x.month)
    ++ '-' :: (padLeft 2 (natDecimalChars x.day)
      ++ '-' :: padLeft 4 (natDecimalChars x.year)))

/-- Row of the `clientes` table. -/
structure Cliente where
  id : Nat
  nombre : String
  apellidos : String
deriving DecidableEq

/-- Row of the `salas` table. -/
structure Sala where
  id : Nat
  nombre : String
  cupo : Nat
deriving DecidableEq

/-- Row of the `reservaciones` table. -/
structure Reservacion where
  id : Nat
  folio : String
  cliente_id : Nat
  sala_id : Nat
  fecha : String
  turno : String
  nombre_evento : String
deriving DecidableEq

/-- The SQLite database: the three tables in rowid order, plus the next
AUTOINCREMENT key of each. -/
structure Store where
  clientes : List Cliente
  salas : List Sala
  reservaciones : List Reservacion
  nextClienteId : Nat
  nextSalaId : Nat
  nextResId : Nat
deriving DecidableEq

/-- Result of the guarded INSERT/UPDATE block of `registrar_reservacion`:
success with the generated folio, or an `sqlite3.IntegrityError` raised at
the INSERT or at the folio UPDATE (both caught by the same `except`). -/
inductive RegResultado
  | exito (folio : String)
  | conflictoInsert
  | conflictoUpdate
deriving DecidableEq

/-- Ordering used by SQLite to compare two TEXT values: byte order of the
UTF-8 encodings (BINARY collation), which coincides with lexicographic
order on the code points, i.e. on `String.data`. `ORDER BY apellidos,
nombre` of `listar_clientes`. -/
def ordenClientes (a b : Cliente) : Prop :=
  a.apellidos.data < b.apellidos.data
    ∨ (a.apellidos = b.apellidos ∧ a.nombre.data ≤ b.nombre.data)

instance : DecidableRel ordenClientes := fun a b => by
  unfold ordenClientes; infer_instance

/-- `ORDER BY fecha` of `editar_nombre_evento`, on the TEXT date column. -/
def ordenFechaTxt (a b : Reservacion) : Prop := a.fecha.data ≤ b.fecha.data

instance : DecidableRel ordenFechaTxt := fun a b => by
  unfold ordenFechaTxt; infer_instance

instance : IsTotal Reservacion ordenFechaTxt :=
  ⟨fun a b => le_total a.fecha.data b.fecha.data⟩

instance : IsTrans Reservacion ordenFechaTxt :=
  ⟨fun _ _ _ hab hbc => le_trans hab hbc⟩

/-- `ORDER BY r.turno, s.id` of `consultar_reservaciones`: the TEXT shift
column first (BINARY collation), then the room key, which equals
`r.sala_id` under the join condition. -/
def ordenConsulta (a b : Reservacion) : Prop :=
  a.turno.data < b.turno.data ∨ (a.turno = b.turno ∧ a.sala_id ≤ b.sala_id)

instance : DecidableRel ordenConsulta := fun a b => by
  unfold ordenConsulta; infer_instance

instance : IsTotal Reservacion ordenConsulta := by
  constructor
  intro a b
  unfold ordenConsulta
  rcases lt_trichotomy a.turno.data b.turno.data with h | h | h
  · exact Or.inl (Or.inl h)
  · have ht : a.turno = b.turno := String.ext h
    rcases le_total a.sala_id b.sala_id with hs | hs
    · exact Or.inl (Or.inr ⟨ht, hs⟩)
    · exact Or.inr (Or.inr ⟨ht.symm, hs⟩)
  · exact Or.inr (Or.inl h)

instance : IsTrans Reservacion ordenConsulta := by
  constructor
  intro a b c hab hbc
  unfold ordenConsulta at hab hbc ⊢
  rcases hab with hab | ⟨hab, hab2⟩ <;> rcases hbc with hbc | ⟨hbc, hbc2⟩
  · exact Or.inl (lt_trans hab hbc)
  · exact Or.inl (hbc ▸ hab)
  · exact Or.inl (hab ▸ hbc)
  · exact Or.inr ⟨hab.trans hbc, le_trans hab2 hbc2⟩

/-- Clients as returned by `listar_clientes` (`ORDER BY apellidos, nombre`). -/
def listar_clientes (st : Store) : List Cliente :=
  st.clientes.insertionSort ordenClientes

/-- Rooms as returned by `listar_salas` (`ORDER BY id`). -/
def listar_salas (st : Store) : List Sala :=
  st.salas.insertionSort fun a b => a.id ≤ b.id

/-- Minimum allowed date, `solicitar_fecha_minima`: `hoy` models the value
of `date.today()` at the moment of the call. -/
def solicitar_fecha_minima (hoy : Fecha) : Fecha := addDays hoy 2

/-- Sunday test `es_domingo`: `d.weekday() == 6`. -/
def es_domingo (d : Fecha) : Bool := weekday d == 6

/-- Rooms with at least one free shift on date `d`, with those shifts:
`salas_disponibles_para_fecha`. Each room of `listar_salas` is kept, paired
with the `TURNOS` for which `SELECT COUNT(1) FROM reservaciones WHERE
sala_id=? AND fecha=? AND turno=?` returns 0, whenever that shift list is
non-empty. -/
def salas_disponibles_para_fecha (st : Store) (d : Fecha) :
    List (Nat × String × Nat × List String) :=
  (listar_salas st).filterMap fun s =>
    let turnos_libres := TURNOS.filter fun t =>
      st.reservaciones.countP
        (fun r => r.sala_id == s.id && r.fecha == strftime_mdY d && r.turno == t) == 0
    if turnos_libres.isEmpty then none else some (s.id, s.nombre, s.cupo, turnos_libres)

/-- INSERT INTO reservaciones: fails (IntegrityError) when the new row
violates `UNIQUE(sala_id, fecha, turno)` or `folio UNIQUE`; otherwise
appends the row under the next AUTOINCREMENT key and returns that key
(`cur.lastrowid`). -/
def insertaReservacion (st : Store) (folio : String) (cliente_id sala_id : Nat)
    (fecha turno nombre_evento : String) : Option (Store × Nat) :=
  if st.reservaciones.any fun r =>
      r.sala_id == sala_id && r.fecha == fecha && r.turno == turno then none
  else if st.reservaciones.any fun r => r.folio == folio then none
  else
    some ({ st with
              reservaciones := st.reservaciones
                ++ [⟨st.nextResId, folio, cliente_id, sala_id, fecha, turno, nombre_evento⟩],
              nextResId := st.nextResId + 1 },
          st.nextResId)

/-- UPDATE reservaciones SET folio=? WHERE id=?: fails (IntegrityError) when
another row already carries that folio, else patches the row. -/
def actualizaFolio (st : Store) (folio : String) (res_id : Nat) : Option Store :=
  if st.reservaciones.any fun r => r.folio == folio && r.id != res_id then none
  else
    some { st with
             reservaciones := st.reservaciones.map fun r =>
               if r.id == res_id then { r with folio := folio } else r }

/-- The try/except block of `registrar_reservacion`: insert the row with the
empty folio placeholder, then patch in `generar_folio(cur.lastrowid)`; an
IntegrityError at either statement is caught and reported as a conflict. -/
def registrar_insercion (st : Store) (cliente_id sala_elegida : Nat)
    (fecha_str turno nombre_evento : String) : Store × RegResultado :=
  match insertaReservacion st "" cliente_id sala_elegida fecha_str turno nombre_evento with
  | none => (st, .conflictoInsert)
  | some (st1, res_id) =>
    match actualizaFolio st1 (generar_folio res_id) res_id with
    | none => (st1, .conflictoUpdate)
    | some st2 => (st2, .exito (generar_folio res_id))

/-- One round of the date-entry loop of `registrar_reservacion`: `hoy` is the
wall-clock date when this round's text is submitted (the code never reads
it inside the loop), `entrada` the result of `parsear_fecha` on the entered
text, `aceptar` the S/N answer to the Sunday Monday-proposal prompt. -/
structure FechaInput where
  hoy : Fecha
  entrada : Option Fecha
  aceptar : Bool

/-- Reasons a round of the date-entry loop re-prompts. -/
inductive FechaError
  | formatoInvalido
  | fechaMuyPronto
  | domingoRechazado
  | sinDisponibilidad
deriving DecidableEq

/-- One iteration of the date-entry `while True:` loop of
`registrar_reservacion` (parse; `d < min_fecha` check against the loop-wide
`min_fecha`; Sunday proposal `d + timedelta(days=1)` taken only on `'s'`;
availability check), producing the accepted date or the reason to loop. -/
def fecha_iteracion (min_fecha : Fecha) (st : Store) (i : FechaInput) :
    Except FechaError Fecha :=
  match i.entrada with
  | none => .error .formatoInvalido
  | some d =>
    if fechaBlt d min_fecha then .error .fechaMuyPronto
    else if es_domingo d && !i.aceptar then .error .domingoRechazado
    else
      let dFinal := if es_domingo d then nextDay d else d
      if (salas_disponibles_para_fecha st dFinal).isEmpty then .error .sinDisponibilidad
      else .ok dFinal

/-- The date-entry loop: consume inputs until one is accepted; `none` models
a run of inputs that never exits the loop. -/
def fecha_loop (min_fecha : Fecha) (st : Store) : List FechaInput → Option Fecha
  | [] => none
  | i :: rest =>
    match fecha_iteracion min_fecha st i with
    | .ok d => some d
    | .error _ => fecha_loop min_fecha st rest

/-- The whole `registrar_reservacion` flow for an already-validated client
key: `min_fecha` is computed once from `hoy` (the `date.today()` at that
moment) before the date loop; after the loop, room, shift and event name
are each the first valid entry of their input list (their loops re-ask
until valid); finally the guarded insert runs. Returns the final store and
the folio on success. -/
def registrar_flujo (st : Store) (hoy : Fecha) (cliente_id : Nat)
    (fechas : List FechaInput) (salas_in : List Nat) (turnos_in : List String)
    (eventos_in : List String) : Store × Option String :=
  if !(listar_clientes st).any (fun c => c.id == cliente_id) then (st, none)
  else
    match fecha_loop (solicitar_fecha_minima hoy) st fechas with
    | none => (st, none)
    | some d =>
      match salas_in.find? (fun c =>
          (salas_disponibles_para_fecha st d).any fun s => s.1 == c) with
      | none => (st, none)
      | some sala_elegida =>
        match (salas_disponibles_para_fecha st d).find?
            (fun s => s.1 == sala_elegida) with
        | none => (st, none)
        | some s =>
          match turnos_in.find? (fun t => s.2.2.2.contains t) with
          | none => (st, none)
          | some turno =>
            match eventos_in.find? (fun e => !(e == "")) with
            | none => (st, none)
            | some nombre_evento =>
              match registrar_insercion st cliente_id sala_elegida (strftime_mdY d)
                  turno nombre_evento with
              | (st2, .exito folio) => (st2, some folio)
              | (st2, _) => (st2, none)

/-- Row set of `editar_nombre_evento`'s search: `SELECT ... FROM
reservaciones WHERE fecha BETWEEN ? AND ? ORDER BY fecha`, the bounds being
`desde.strftime(DATE_FORMAT)` and `hasta.strftime(DATE_FORMAT)`; BETWEEN
and ORDER BY act on the stored TEXT column. -/
def editar_buscar (st : Store) (desde hasta : Fecha) : List Reservacion :=
  (st.reservaciones.filter fun r =>
      decide ((strftime_mdY desde).data ≤ r.fecha.data)
        && decide (r.fecha.data ≤ (strftime_mdY hasta).data)).insertionSort
    ordenFechaTxt

/-- The `Fecha hasta` prompt loop of `editar_nombre_evento`: re-ask until the
text parses and `hasta >= desde` (a `datetime.date` comparison). -/
def hasta_loop (desde : Fecha) : List (Option Fecha) → Option Fecha
  | [] => none
  | none :: rest => hasta_loop desde rest
  | some h :: rest => if fechaBle desde h then some h else hasta_loop desde rest

/-- UPDATE of `editar_nombre_evento`: `UPDATE reservaciones SET
nombre_evento=? WHERE id=?`. -/
def editar_actualiza (st : Store) (clave_id : Nat) (nuevo_nombre : String) : Store :=
  { st with
      reservaciones := st.reservaciones.map fun r =>
        if r.id == clave_id then { r with nombre_evento := nuevo_nombre } else r }

/-- JOIN of `consultar_reservaciones`: the reservation row with its `salas`
and `clientes` rows (`JOIN ... ON r.sala_id = s.id`, `ON r.cliente_id =
c.id`); the displayed columns are projections of this triple. -/
def consultar_join (st : Store) (r : Reservacion) : Option (Reservacion × Sala × Cliente) :=
  match st.salas.find? (fun s => s.id == r.sala_id),
      st.clientes.find? (fun c => c.id == r.cliente_id) with
  | some s, some c => some (r, s, c)
  | _, _ => none

/-- Result rows of `consultar_reservaciones` for date `d`: `WHERE r.fecha = ?
ORDER BY r.turno, s.id` — the sort key is the TEXT shift column, then the
room key (equal to `r.sala_id` by the join condition). -/
def consultar_reservaciones (st : Store) (d : Fecha) : List (Reservacion × Sala × Cliente) :=
  ((st.reservaciones.filter fun r => r.fecha == strftime_mdY d).insertionSort
      ordenConsulta).filterMap
    (consultar_join st)

/-- Numeric reading of a digit string, the left inverse of the decimal
renderings above. -/
def decodeDec (l : List Char) : Nat :=
  l.foldl (fun a c => a * 10 + (c.toNat - 48)) 0

theorem digitChar_val : ∀ d, d < 10 → (digitChar d).toNat - 48 = d := by decide

theorem natCharsAux_foldl (fuel : Nat) :
    ∀ n acc, n ≤ fuel →
      List.foldl (fun a c => a * 10 + (c.toNat - 48)) acc (natCharsAux fuel n)
        = acc * 10 ^ (natCharsAux fuel n).length + n := by
  induction fuel with
  | zero =>
    intro n acc hn
    interval_cases n
    simp [natCharsAux]
  | succ fuel ih =>
    intro n acc hn
    by_cases h0 : n = 0
    · subst h0; simp [natCharsAux]
    · have hdiv : n / 10 ≤ fuel := by
        have := Nat.div_lt_self (Nat.pos_of_ne_zero h0) (by norm_num : 1 < 10)
        omega
      have hmod : n % 10 < 10 := Nat.mod_lt _ (by norm_num)
      simp only [natCharsAux, h0, if_false, List.foldl_append, List.foldl_cons,
        List.foldl_nil, List.length_append, List.length_cons, List.length_nil,
        ih (n / 10) acc hdiv, digitChar_val _ hmod]
      have : acc * 10 ^ (natCharsAux fuel (n / 10)).length * 10
          = acc * 10 ^ ((natCharsAux fuel (n / 10)).length + (0 + 1)) := by ring
      rw [Nat.add_mul, this]
      have := Nat.div_add_mod n 10
      omega

theorem foldl_zeros (k : Nat) :
    List.foldl (fun a c => a * 10 + (c.toNat - 48)) 0 (List.replicate k '0') = 0 := by
  induction k with
  | zero => simp
  | succ k ih => simpa [List.replicate_succ] using ih

/-- Reading back a zero-padded decimal rendering recovers the number. -/
theorem decodeDec_pad (k n : Nat) :
    decodeDec (List.replicate k '0' ++ natDecimalChars n) = n := by
  unfold decodeDec
  rw [List.foldl_append, foldl_zeros]
  simpa using natCharsAux_foldl n n 0 le_rfl

theorem decodeDec_padLeft (w n : Nat) : decodeDec (padLeft w (natDecimalChars n)) = n :=
  decodeDec_pad _ n

/-- Distinct reservation keys give distinct folios. -/
theorem generar_folio_injective : Function.Injective generar_folio := by
  intro m n h
  unfold generar_folio at h
  have hl : 'R' :: padLeft 6 (natDecimalChars m) = 'R' :: padLeft 6 (natDecimalChars n) :=
    congrArg String.data h
  have : padLeft 6 (natDecimalChars m) = padLeft 6 (natDecimalChars n) := by
    injection hl
  calc m = decodeDec (padLeft 6 (natDecimalChars m)) := (decodeDec_padLeft 6 m).symm
    _ = decodeDec (padLeft 6 (natDecimalChars n)) := by rw [this]
    _ = n := decodeDec_padLeft 6 n

theorem natCharsAux_length_le (fuel : Nat) :
    ∀ k n, n ≤ fuel → n < 10 ^ k → (natCharsAux fuel n).length ≤ k := by
  induction fuel with
  | zero =>
    intro k n hn _
    interval_cases n
    simp [natCharsAux]
  | succ fuel ih =>
    intro k n hn hk
    by_cases h0 : n = 0
    · subst h0; simp [natCharsAux]
    · match k with
      | 0 => omega
      | j + 1 =>
        have hdiv : n / 10 ≤ fuel := by
          have := Nat.div_lt_self (Nat.pos_of_ne_zero h0) (by norm_num : 1 < 10)
          omega
        have hdivpow : n / 10 < 10 ^ j := by
          rw [Nat.div_lt_iff_lt_mul (by norm_num : 0 < 10)]
          calc n < 10 ^ (j + 1) := hk
            _ = 10 ^ j * 10 := by ring
        have := ih j (n / 10) hdiv hdivpow
        simp only [natCharsAux, h0, if_false, List.length_append, List.length_cons,
          List.length_nil]
        omega

theorem padLeft_length {w : Nat} {l : List Char} (h : l.length ≤ w) :
    (padLeft w l).length = w := by
  simp [padLeft]
  omega

/-- The `MM-DD-YYYY` rendering is injective as long as month and day fit in
their two-digit fields (always true of `datetime.date` values). -/
theorem strftime_mdY_inj {x y : Fecha} (hxm : x.month < 100) (hxd : x.day < 100)
    (hym : y.month < 100) (hyd : y.day < 100)
    (h : strftime_mdY x = strftime_mdY y) : x = y := by
  have hdata := congrArg String.data h
  simp only [strftime_mdY] at hdata
  have lm1 : (padLeft 2 (natDecimalChars x.month)).length = 2 :=
    padLeft_length (natCharsAux_length_le _ 2 _ le_rfl (by norm_num; omega))
  have lm2 : (padLeft 2 (natDecimalChars y.month)).length = 2 :=
    padLeft_length (natCharsAux_length_le _ 2 _ le_rfl (by norm_num; omega))
  have ld1 : (padLeft 2 (natDecimalChars x.day)).length = 2 :=
    padLeft_length (natCharsAux_length_le _ 2 _ le_rfl (by norm_num; omega))
  have ld2 : (padLeft 2 (natDecimalChars y.day)).length = 2 :=
    padLeft_length (natCharsAux_length_le _ 2 _ le_rfl (by norm_num; omega))
  obtain ⟨hA, htail⟩ := List.append_inj hdata (lm1.trans lm2.symm)
  have htail2 : padLeft 2 (natDecimalChars x.day) ++ '-' :: padLeft 4 (natDecimalChars x.year)
      = padLeft 2 (natDecimalChars y.day) ++ '-' :: padLeft 4 (natDecimalChars y.year) := by
    injection htail
  obtain ⟨hB, htail3⟩ := List.append_inj htail2 (ld1.trans ld2.symm)
  have hC : padLeft 4 (natDecimalChars x.year) = padLeft 4 (natDecimalChars y.year) := by
    injection htail3
  have hm : x.month = y.month := by
    have := congrArg decodeDec hA
    simpa [decodeDec_padLeft] using this
  have hd : x.day = y.day := by
    have := congrArg decodeDec hB
    simpa [decodeDec_padLeft] using this
  have hy : x.year = y.year := by
    have := congrArg decodeDec hC
    simpa [decodeDec_padLeft] using this
  obtain ⟨a, b, c⟩ := x
  obtain ⟨d, e, f⟩ := y
  simp only at hm hd hy
  rw [hm, hd, hy]

theorem leapsBefore_succ (y : Nat) (hy : 1 ≤ y) :
    leapsBefore (y + 1) = leapsBefore y + (if isLeap y then 1 else 0) := by
  obtain ⟨n, rfl⟩ : ∃ n, y = n + 1 := ⟨y - 1, by omega⟩
  unfold leapsBefore isLeap
  simp only [Nat.add_sub_cancel]
  have e4 := Nat.succ_div n 4
  have e100 := Nat.succ_div n 100
  have e400 := Nat.succ_div n 400
  by_cases d4 : (4 : Nat) ∣ (n + 1) <;> by_cases d100 : (100 : Nat) ∣ (n + 1) <;>
    by_cases d400 : (400 : Nat) ∣ (n + 1) <;>
    simp_all [Nat.dvd_iff_mod_eq_zero] <;> omega

theorem monthLen_pos : ∀ (leap : Bool) (m : Nat), 1 ≤ m → m ≤ 12 → 1 ≤ monthLen leap m := by
  have h : ∀ (leap : Bool), ∀ m < 13, 1 ≤ m → 1 ≤ monthLen leap m := by decide
  intro leap m h1 h2
  exact h leap m (by omega) h1

theorem daysBeforeMonth_one (leap : Bool) : daysBeforeMonth leap 1 = 0 := by
  cases leap <;> rfl

theorem monthLen_dec (leap : Bool) : monthLen leap 12 = 31 := by cases leap <;> rfl

theorem daysBeforeMonth_dec (leap : Bool) :
    daysBeforeMonth leap 12 = if leap then 335 else 334 := by cases leap <;> rfl

/-- Validity is preserved by the successor date. -/
theorem validFecha_nextDay {x : Fecha} (h : ValidFecha x) : ValidFecha (nextDay x) := by
  obtain ⟨hy, hm1, hm2, hd1, hd2⟩ := h
  by_cases h1 : x.day < monthLen (isLeap x.year) x.month
  · simp only [nextDay, if_pos h1]
    exact ⟨hy, hm1, hm2, by dsimp only; omega, by dsimp only; omega⟩
  · by_cases h2 : x.month < 12
    · simp only [nextDay, if_neg h1, if_pos h2]
      refine ⟨hy, by dsimp only; omega, by dsimp only; omega, by dsimp only; omega, ?_⟩
      dsimp only
      exact monthLen_pos _ _ (by omega) (by omega)
    · simp only [nextDay, if_neg h1, if_neg h2]
      have h31 : monthLen (isLeap (x.year + 1)) 1 = 31 := by
        cases isLeap (x.year + 1) <;> rfl
      refine ⟨by dsimp only; omega, by dsimp only; omega, by dsimp only; omega,
        by dsimp only; omega, ?_⟩
      dsimp only
      omega

/-- The successor date advances the linear day count by exactly one. -/
theorem toOrdinal_nextDay {x : Fecha} (h : ValidFecha x) :
    toOrdinal (nextDay x) = toOrdinal x + 1 := by
  obtain ⟨hy, hm1, hm2, hd1, hd2⟩ := h
  by_cases h1 : x.day < monthLen (isLeap x.year) x.month
  · simp only [nextDay, if_pos h1, toOrdinal]
    push_cast
    ring
  · by_cases h2 : x.month < 12
    · simp only [nextDay, if_neg h1, if_pos h2, toOrdinal]
      have hday : x.day = monthLen (isLeap x.year) x.month := by omega
      have hstep : daysBeforeMonth (isLeap x.year) (x.month + 1)
          = daysBeforeMonth (isLeap x.year) x.month + monthLen (isLeap x.year) x.month := rfl
      simp only [hstep, hday]
      push_cast
      ring
    · simp only [nextDay, if_neg h1, if_neg h2, toOrdinal]
      have hmonth : x.month = 12 := by omega
      have hday : x.day = 31 := by
        rw [hmonth, monthLen_dec] at h1 hd2
        omega
      simp only [daysBeforeMonth_one, hmonth, hday, daysBeforeMonth_dec,
        leapsBefore_succ _ hy]
      cases hleap : isLeap x.year <;> simp <;> omega

/-- INSERT INTO clientes of `registrar_cliente` (inputs already validated
non-empty by its prompt loops). -/
def registrar_cliente_insert (st : Store) (nombre apellidos : String) : Store :=
  { st with
      clientes := st.clientes ++ [⟨st.nextClienteId, nombre, apellidos⟩],
      nextClienteId := st.nextClienteId + 1 }

/-- INSERT INTO salas of `registrar_sala` (inputs already validated). -/
def registrar_sala_insert (st : Store) (nombre : String) (cupo : Nat) : Store :=
  { st with
      salas := st.salas ++ [⟨st.nextSalaId, nombre, cupo⟩],
      nextSalaId := st.nextSalaId + 1 }

/-- Invariant of every database state the program can produce: reservation
keys are below the AUTOINCREMENT counter and pairwise distinct, each stored
folio is the one generated from its key, and `UNIQUE(sala_id, fecha,
turno)` holds. -/
def Store.WF (st : Store) : Prop :=
  (∀ r ∈ st.reservaciones, r.id < st.nextResId ∧ r.folio = generar_folio r.id)
    ∧ st.reservaciones.Pairwise (fun a b => a.id ≠ b.id)
    ∧ st.reservaciones.Pairwise (fun a b =>
        ¬(a.sala_id = b.sala_id ∧ a.fecha = b.fecha ∧ a.turno = b.turno))

/-- States reachable from the freshly created empty database
(`crear_tablas` on a new file; AUTOINCREMENT keys start at 1) by the
mutating operations of the program. -/
inductive Reachable : Store → Prop
  | empty : Reachable ⟨[], [], [], 1, 1, 1⟩
  | cliente {st : Store} (nombre apellidos : String) : Reachable st →
      Reachable (registrar_cliente_insert st nombre apellidos)
  | sala {st : Store} (nombre : String) (cupo : Nat) : Reachable st →
      Reachable (registrar_sala_insert st nombre cupo)
  | reservacion {st : Store} (cliente_id sala_id : Nat)
      (fecha turno nombre_evento : String) : Reachable st →
      Reachable (registrar_insercion st cliente_id sala_id fecha turno nombre_evento).1
  | editar {st : Store} (clave_id : Nat) (nuevo_nombre : String) : Reachable st →
      Reachable (editar_actualiza st clave_id nuevo_nombre)

theorem generar_folio_ne_empty (n : Nat) : generar_folio n ≠ "" := by
  intro h
  have := congrArg String.data h
  simp [generar_folio] at this

theorem wf_no_empty_folio {st : Store} (hwf : st.WF) :
    (st.reservaciones.any fun r => r.folio == "") = false := by
  rw [List.any_eq_false]
  intro r hr
  have hfol := (hwf.1 r hr).2
  simp only [beq_iff_eq]
  rw [hfol]
  exact generar_folio_ne_empty r.id

/-- A duplicate (sala, fecha, turno) makes the guarded insert fail with a
conflict and leave the store untouched. -/
theorem registrar_insercion_conflicto {st : Store} {cliente_id sala_id : Nat}
    {fecha turno nombre_evento : String}
    (hdup : (st.reservaciones.any fun r =>
      r.sala_id == sala_id && r.fecha == fecha && r.turno == turno) = true) :
    registrar_insercion st cliente_id sala_id fecha turno nombre_evento
      = (st, .conflictoInsert) := by
  unfold registrar_insercion insertaReservacion
  rw [if_pos hdup]

/-- Patching the folio of the fresh key touches no pre-existing row of a
store whose keys are all below that key. -/
theorem map_patch_id {st : Store} (hwf : st.WF) (folio : String) :
    (st.reservaciones.map fun r =>
        if r.id == st.nextResId then { r with folio := folio } else r)
      = st.reservaciones := by
  conv_rhs => rw [← List.map_id st.reservaciones]
  apply List.map_congr_left
  intro r hr
  have h1 := (hwf.1 r hr).1
  rw [if_neg (by simp only [beq_iff_eq]; omega)]
  rfl

/-- Without a duplicate (sala, fecha, turno), the guarded insert of a
well-formed store succeeds: the new row is appended with the next key and
its generated folio, and the counter advances. -/
theorem registrar_insercion_exito {st : Store} (hwf : st.WF) {cliente_id sala_id : Nat}
    {fecha turno nombre_evento : String}
    (hdup : (st.reservaciones.any fun r =>
      r.sala_id == sala_id && r.fecha == fecha && r.turno == turno) = false) :
    registrar_insercion st cliente_id sala_id fecha turno nombre_evento
      = ({ st with
             reservaciones := st.reservaciones
               ++ [⟨st.nextResId, generar_folio st.nextResId, cliente_id, sala_id,
                    fecha, turno, nombre_evento⟩],
             nextResId := st.nextResId + 1 },
         .exito (generar_folio st.nextResId)) := by
  have hins : insertaReservacion st "" cliente_id sala_id fecha turno nombre_evento
      = some ({ st with
                  reservaciones := st.reservaciones
                    ++ [⟨st.nextResId, "", cliente_id, sala_id, fecha, turno, nombre_evento⟩],
                  nextResId := st.nextResId + 1 },
              st.nextResId) := by
    unfold insertaReservacion
    rw [if_neg (by rw [hdup]; exact Bool.false_ne_true),
      if_neg (by rw [wf_no_empty_folio hwf]; exact Bool.false_ne_true)]
  have hchk : ((st.reservaciones
        ++ [(⟨st.nextResId, "", cliente_id, sala_id, fecha, turno,
              nombre_evento⟩ : Reservacion)]).any
      fun r => r.folio == generar_folio st.nextResId && r.id != st.nextResId) = false := by
    rw [List.any_append]
    have h1 : (st.reservaciones.any
        fun r => r.folio == generar_folio st.nextResId && r.id != st.nextResId) = false := by
      rw [List.any_eq_false]
      intro r hr
      simp only [Bool.and_eq_true, beq_iff_eq, bne_iff_ne, not_and]
      intro hfol
      have h1 := (hwf.1 r hr).1
      have h2 := (hwf.1 r hr).2
      rw [h2] at hfol
      have := generar_folio_injective hfol
      omega
    rw [h1]
    simp [generar_folio_ne_empty]
  have hupd : actualizaFolio
      { st with
          reservaciones := st.reservaciones
            ++ [⟨st.nextResId, "", cliente_id, sala_id, fecha, turno, nombre_evento⟩],
          nextResId := st.nextResId + 1 }
      (generar_folio st.nextResId) st.nextResId
      = some { st with
                 reservaciones := st.reservaciones
                   ++ [⟨st.nextResId, generar_folio st.nextResId, cliente_id, sala_id,
                        fecha, turno, nombre_evento⟩],
                 nextResId := st.nextResId + 1 } := by
    unfold actualizaFolio
    rw [if_neg (by rw [hchk]; exact Bool.false_ne_true)]
    congr 1
    simp only [List.map_append, map_patch_id hwf, List.map_cons, List.map_nil]
    simp
  simp only [registrar_insercion, hins, hupd]

theorem wf_empty : Store.WF ⟨[], [], [], 1, 1, 1⟩ := by
  refine ⟨?_, ?_, ?_⟩ <;> simp [Store.WF]

theorem wf_registrar_cliente {st : Store} (hwf : st.WF) (nombre apellidos : String) :
    (registrar_cliente_insert st nombre apellidos).WF := hwf

theorem wf_registrar_sala {st : Store} (hwf : st.WF) (nombre : String) (cupo : Nat) :
    (registrar_sala_insert st nombre cupo).WF := hwf

/-- The event-name update leaves every field of every row except
`nombre_evento` unchanged. -/
theorem editar_preserva_campos (clave_id : Nat) (nuevo_nombre : String) (r : Reservacion) :
    ((if r.id == clave_id then { r with nombre_evento := nuevo_nombre } else r) : Reservacion).id
        = r.id
      ∧ ((if r.id == clave_id then { r with nombre_evento := nuevo_nombre }
          else r) : Reservacion).folio = r.folio
      ∧ ((if r.id == clave_id then { r with nombre_evento := nuevo_nombre }
          else r) : Reservacion).cliente_id = r.cliente_id
      ∧ ((if r.id == clave_id then { r with nombre_evento := nuevo_nombre }
          else r) : Reservacion).sala_id = r.sala_id
      ∧ ((if r.id == clave_id then { r with nombre_evento := nuevo_nombre }
          else r) : Reservacion).fecha = r.fecha
      ∧ ((if r.id == clave_id then { r with nombre_evento := nuevo_nombre }
          else r) : Reservacion).turno = r.turno := by
  split <;> simp

theorem wf_editar {st : Store} (hwf : st.WF) (clave_id : Nat) (nuevo_nombre : String) :
    (editar_actualiza st clave_id nuevo_nombre).WF := by
  obtain ⟨hfol, hids, htrip⟩ := hwf
  refine ⟨?_, ?_, ?_⟩
  · intro r' hr'
    simp only [editar_actualiza, List.mem_map] at hr'
    obtain ⟨r, hr, rfl⟩ := hr'
    obtain ⟨e1, e2, _, _, _, _⟩ := editar_preserva_campos clave_id nuevo_nombre r
    rw [e1, e2]
    exact hfol r hr
  · simp only [editar_actualiza, List.pairwise_map]
    refine hids.imp ?_
    intro a b hab
    obtain ⟨ea, _, _, _, _, _⟩ := editar_preserva_campos clave_id nuevo_nombre a
    obtain ⟨eb, _, _, _, _, _⟩ := editar_preserva_campos clave_id nuevo_nombre b
    rw [ea, eb]
    exact hab
  · simp only [editar_actualiza, List.pairwise_map]
    refine htrip.imp ?_
    intro a b hab
    obtain ⟨_, _, _, sa, fa, ta⟩ := editar_preserva_campos clave_id nuevo_nombre a
    obtain ⟨_, _, _, sb, fb, tb⟩ := editar_preserva_campos clave_id nuevo_nombre b
    rw [sa, fa, ta, sb, fb, tb]
    exact hab

theorem wf_registrar_insercion {st : Store} (hwf : st.WF) (cliente_id sala_id : Nat)
    (fecha turno nombre_evento : String) :
    (registrar_insercion st cliente_id sala_id fecha turno nombre_evento).1.WF := by
  by_cases hdup : (st.reservaciones.any fun r =>
      r.sala_id == sala_id && r.fecha == fecha && r.turno == turno) = true
  · rw [registrar_insercion_conflicto hdup]
    exact hwf
  · rw [registrar_insercion_exito hwf (Bool.eq_false_iff.mpr hdup)]
    unfold Store.WF
    dsimp only
    obtain ⟨hfol, hids, htrip⟩ := hwf
    have hany := Bool.eq_false_iff.mpr hdup
    rw [List.any_eq_false] at hany
    refine ⟨?_, ?_, ?_⟩
    · intro r hr
      rcases List.mem_append.mp hr with h | h
      · have := hfol r h
        exact ⟨by omega, this.2⟩
      · rcases List.mem_singleton.mp h with rfl
        exact ⟨by dsimp only; omega, rfl⟩
    · rw [List.pairwise_append]
      refine ⟨hids, List.pairwise_singleton _ _, ?_⟩
      intro a ha b hb
      rcases List.mem_singleton.mp hb with rfl
      have := (hfol a ha).1
      simp only
      omega
    · rw [List.pairwise_append]
      refine ⟨htrip, List.pairwise_singleton _ _, ?_⟩
      intro a ha b hb
      rcases List.mem_singleton.mp hb with rfl
      have := hany a ha
      simp only [Bool.and_eq_true, beq_iff_eq] at this
      simp only
      tauto

/-- Every reachable database state is well-formed. -/
theorem reachable_wf {st : Store} (h : Reachable st) : st.WF := by
  induction h with
  | empty => exact wf_empty
  | cliente nombre apellidos _ ih => exact wf_registrar_cliente ih nombre apellidos
  | sala nombre cupo _ ih => exact wf_registrar_sala ih nombre cupo
  | reservacion cliente_id sala_id fecha turno nombre_evento _ ih =>
    exact wf_registrar_insercion ih cliente_id sala_id fecha turno nombre_evento
  | editar clave_id nuevo_nombre _ ih => exact wf_editar ih clave_id nuevo_nombre

theorem countP_eq_one_of_pairwise {α : Type} {p : α → Bool} {a : α} :
    ∀ {l : List α}, (l.Pairwise fun u v => ¬(p u = true ∧ p v = true)) → a ∈ l →
      p a = true → l.countP p = 1 := by
  intro l hpair
  induction hpair with
  | nil => intro ha; cases ha
  | @cons x xs hhead htail ih =>
    intro ha hpa
    rcases List.mem_cons.mp ha with rfl | hmem
    · rw [List.countP_cons_of_pos _ _ hpa]
      have hzero : xs.countP p = 0 := by
        rw [List.countP_eq_zero]
        intro b hb hpb
        exact hhead b hb ⟨hpa, hpb⟩
      omega
    · have hpx : ¬ p x = true := fun hx => hhead a hmem ⟨hx, hpa⟩
      rw [List.countP_cons_of_neg _ _ hpx]
      exact ih hmem hpa

/-- Sample database: one client, one room, one reservation, built by the
program's own operations. -/
def stEj : Store :=
  (registrar_insercion
    (registrar_sala_insert
      (registrar_cliente_insert ⟨[], [], [], 1, 1, 1⟩ "Ana" "Lopez") "Magna" 10)
    1 1 "10-20-2026" "Matutino" "Expo").1

theorem reachable_stEj : Reachable stEj :=
  Reachable.reservacion 1 1 "10-20-2026" "Matutino" "Expo"
    (Reachable.sala "Magna" 10 (Reachable.cliente "Ana" "Lopez" Reachable.empty))

/-- C1: on a reachable store that already holds a reservation for a given
(room, date, shift), a second booking attempt for that same triple always
fails with the insert conflict, whatever client and event name are
supplied; the store is unchanged, so exactly one reservation for that
triple remains. -/
theorem doble_reserva_siempre_conflicto {st : Store} (hst : Reachable st)
    {r : Reservacion} (hr : r ∈ st.reservaciones)
    (cliente_id : Nat) (nombre_evento : String) :
    registrar_insercion st cliente_id r.sala_id r.fecha r.turno nombre_evento
        = (st, RegResultado.conflictoInsert)
      ∧ (st.reservaciones.countP fun x =>
          x.sala_id == r.sala_id && x.fecha == r.fecha && x.turno == r.turno) = 1 := by
  have hwf := reachable_wf hst
  have hdup : (st.reservaciones.any fun x =>
      x.sala_id == r.sala_id && x.fecha == r.fecha && x.turno == r.turno) = true := by
    rw [List.any_eq_true]
    exact ⟨r, hr, by simp⟩
  refine ⟨registrar_insercion_conflicto hdup, ?_⟩
  apply countP_eq_one_of_pairwise _ hr (by simp)
  refine hwf.2.2.imp ?_
  intro a b hab ⟨hpa, hpb⟩
  simp only [Bool.and_eq_true, beq_iff_eq] at hpa hpb
  exact hab ⟨hpa.1.1.trans hpb.1.1.symm, hpa.1.2.trans hpb.1.2.symm,
    hpa.2.trans hpb.2.symm⟩

/-- C1 witness: a second booking of (room 1, 10-20-2026, Matutino) on the
sample store, with a different client and event name. -/
theorem doble_reserva_siempre_conflicto_witness :
    registrar_insercion stEj 2 1 "10-20-2026" "Matutino" "Otro"
        = (stEj, RegResultado.conflictoInsert)
      ∧ (stEj.reservaciones.countP fun x =>
          x.sala_id == 1 && x.fecha == "10-20-2026" && x.turno == "Matutino") = 1 :=
  doble_reserva_siempre_conflicto reachable_stEj
    (show (⟨1, generar_folio 1, 1, 1, "10-20-2026", "Matutino",
      "Expo"⟩ : Reservacion) ∈ stEj.reservaciones by decide)
    2 "Otro"

/-- C2: when the guarded insert of a booking on a reachable store does not
succeed, it is the INSERT itself that failed (never the later folio patch),
and the store is left exactly as it was — no placeholder row with an empty
folio survives — so every subsequent date query returns what it returned
before the attempt. -/
theorem fallo_insercion_sin_estado_parcial {st : Store} (hst : Reachable st)
    (cliente_id sala_id : Nat) (fecha turno nombre_evento : String) :
    (registrar_insercion st cliente_id sala_id fecha turno nombre_evento).2
        ≠ RegResultado.conflictoUpdate
      ∧ ((∀ f, (registrar_insercion st cliente_id sala_id fecha turno nombre_evento).2
            ≠ RegResultado.exito f) →
          (registrar_insercion st cliente_id sala_id fecha turno nombre_evento).1 = st
            ∧ ∀ d, consultar_reservaciones
                  (registrar_insercion st cliente_id sala_id fecha turno nombre_evento).1 d
                = consultar_reservaciones st d) := by
  have hwf := reachable_wf hst
  by_cases hdup : (st.reservaciones.any fun x =>
      x.sala_id == sala_id && x.fecha == fecha && x.turno == turno) = true
  · rw [registrar_insercion_conflicto hdup]
    exact ⟨by simp, fun _ => ⟨rfl, fun _ => rfl⟩⟩
  · rw [registrar_insercion_exito hwf (Bool.eq_false_iff.mpr hdup)]
    refine ⟨by simp, fun h => absurd rfl (h _)⟩

/-- C2 witness: the failing duplicate booking on the sample store. -/
theorem fallo_insercion_sin_estado_parcial_witness :
    (registrar_insercion stEj 2 1 "10-20-2026" "Matutino" "Otro").2
        ≠ RegResultado.conflictoUpdate
      ∧ ((∀ f, (registrar_insercion stEj 2 1 "10-20-2026" "Matutino" "Otro").2
            ≠ RegResultado.exito f) →
          (registrar_insercion stEj 2 1 "10-20-2026" "Matutino" "Otro").1 = stEj
            ∧ ∀ d, consultar_reservaciones
                  (registrar_insercion stEj 2 1 "10-20-2026" "Matutino" "Otro").1 d
                = consultar_reservaciones stEj d) :=
  fallo_insercion_sin_estado_parcial reachable_stEj 2 1 "10-20-2026" "Matutino" "Otro"

/-- C9: in every reachable store the folios of any two distinct reservations
differ, and each folio is `R` followed by the row's key zero-padded to six
digits. -/
theorem folios_unicos_y_derivados {st : Store} (hst : Reachable st) :
    st.reservaciones.Pairwise (fun a b => a.folio ≠ b.folio)
      ∧ ∀ r ∈ st.reservaciones, r.folio = generar_folio r.id := by
  have hwf := reachable_wf hst
  refine ⟨?_, fun r hr => (hwf.1 r hr).2⟩
  refine hwf.2.1.imp_of_mem ?_
  intro a b ha hb hab hfol
  rw [(hwf.1 a ha).2, (hwf.1 b hb).2] at hfol
  exact hab (generar_folio_injective hfol)

/-- C9 witness: the sample store. -/
theorem folios_unicos_y_derivados_witness :
    stEj.reservaciones.Pairwise (fun a b => a.folio ≠ b.folio)
      ∧ ∀ r ∈ stEj.reservaciones, r.folio = generar_folio r.id :=
  folios_unicos_y_derivados reachable_stEj

/-- C10: the event-name update touches nothing but the `nombre_evento` of
the row with the given key: the tables of clients and rooms are unchanged,
the reservation list keeps its length and order, every row keeps its key,
folio, client, room, date and shift, rows with other keys are identical,
and the targeted rows carry the new name. -/
theorem editar_solo_cambia_nombre (st : Store) (clave_id : Nat) (nuevo_nombre : String) :
    (editar_actualiza st clave_id nuevo_nombre).clientes = st.clientes
      ∧ (editar_actualiza st clave_id nuevo_nombre).salas = st.salas
      ∧ List.Forall₂ (fun r r' : Reservacion =>
          r'.id = r.id ∧ r'.folio = r.folio ∧ r'.cliente_id = r.cliente_id
            ∧ r'.sala_id = r.sala_id ∧ r'.fecha = r.fecha ∧ r'.turno = r.turno
            ∧ (r.id ≠ clave_id → r' = r)
            ∧ (r.id = clave_id → r'.nombre_evento = nuevo_nombre))
          st.reservaciones (editar_actualiza st clave_id nuevo_nombre).reservaciones := by
  refine ⟨rfl, rfl, ?_⟩
  unfold editar_actualiza
  dsimp only
  rw [List.forall₂_map_right_iff, List.forall₂_same]
  intro r hr
  by_cases h : r.id = clave_id
  · rw [if_pos (by simpa using h)]
    refine ⟨rfl, rfl, rfl, rfl, rfl, rfl, fun hne => absurd h hne, fun _ => rfl⟩
  · rw [if_neg (by simpa using h)]
    exact ⟨rfl, rfl, rfl, rfl, rfl, rfl, fun _ => rfl, fun he => absurd he h⟩

/-- Membership in the availability result, unfolded: an entry for key `sid`
is present exactly when some registered room has that key and the filtered
shift list is non-empty, and then the entry carries that room's name,
capacity and exactly the filtered shift list. -/
theorem mem_salas_disponibles {st : Store} {d : Fecha} {sid : Nat} {nombre : String}
    {cupo : Nat} {ts : List String} :
    (sid, nombre, cupo, ts) ∈ salas_disponibles_para_fecha st d
      ↔ ∃ s : Sala, s ∈ st.salas ∧ s.id = sid ∧ s.nombre = nombre ∧ s.cupo = cupo
          ∧ ts = TURNOS.filter (fun t => st.reservaciones.countP
              (fun r => r.sala_id == sid && r.fecha == strftime_mdY d && r.turno == t) == 0)
          ∧ ts ≠ [] := by
  unfold salas_disponibles_para_fecha
  rw [List.mem_filterMap]
  constructor
  · rintro ⟨s, hs, hfs⟩
    have hsmem : s ∈ st.salas := (List.perm_insertionSort _ _).mem_iff.mp hs
    dsimp only at hfs
    split at hfs
    · cases hfs
    · next hcond =>
      simp only [Option.some.injEq, Prod.mk.injEq] at hfs
      obtain ⟨h1, h2, h3, h4⟩ := hfs
      subst h1
      refine ⟨s, hsmem, rfl, h2, h3, h4.symm, ?_⟩
      rw [← h4]
      intro hnil
      rw [hnil] at hcond
      exact hcond rfl
  · rintro ⟨s, hsmem, rfl, rfl, rfl, hts, hne⟩
    refine ⟨s, (List.perm_insertionSort _ _).mem_iff.mpr hsmem, ?_⟩
    dsimp only
    rw [if_neg (by
      rw [← hts]
      cases hts2 : ts with
      | nil => exact absurd hts2 hne
      | cons a l => simp)]
    rw [← hts]

/-- C8: an entry of `salas_disponibles_para_fecha st d` never has an empty
shift list, and its shift list is exactly the subset of the fixed
enumeration with no reservation for (room, d, shift): every listed shift is
such a free shift, and every free shift of `TURNOS` is listed; a registered
room has an entry under its key exactly when at least one of the three
shifts is free for it on `d`. -/
theorem salas_disponibles_caracterizacion (st : Store) (d : Fecha) :
    (∀ sid nombre cupo ts,
        (sid, nombre, cupo, ts) ∈ salas_disponibles_para_fecha st d →
          ts ≠ []
            ∧ (∀ t ∈ ts, t ∈ TURNOS ∧ (st.reservaciones.countP fun r =>
                r.sala_id == sid && r.fecha == strftime_mdY d && r.turno == t) = 0)
            ∧ (∀ t ∈ TURNOS, (st.reservaciones.countP fun r =>
                r.sala_id == sid && r.fecha == strftime_mdY d && r.turno == t) = 0 →
                t ∈ ts))
      ∧ ∀ s : Sala, s ∈ st.salas →
          ((∃ nombre cupo ts,
              (s.id, nombre, cupo, ts) ∈ salas_disponibles_para_fecha st d)
            ↔ ∃ t ∈ TURNOS, (st.reservaciones.countP fun r =>
                r.sala_id == s.id && r.fecha == strftime_mdY d && r.turno == t) = 0) := by
  constructor
  · intro sid nombre cupo ts hmem
    obtain ⟨s, _, _, _, _, hts, hne⟩ := mem_salas_disponibles.mp hmem
    refine ⟨hne, ?_, ?_⟩
    · intro t ht
      rw [hts] at ht
      have := List.mem_filter.mp ht
      exact ⟨this.1, by simpa using this.2⟩
    · intro t htT hcnt
      rw [hts]
      exact List.mem_filter.mpr ⟨htT, by simpa using hcnt⟩
  · intro s hsmem
    constructor
    · rintro ⟨nombre, cupo, ts, hmem⟩
      obtain ⟨s2, _, hid, _, _, hts, hne⟩ := mem_salas_disponibles.mp hmem
      rcases hts2 : TURNOS.filter (fun t => st.reservaciones.countP
          (fun r => r.sala_id == s.id && r.fecha == strftime_mdY d && r.turno == t)
            == 0) with _ | ⟨t0, l0⟩
      · rw [hts, hts2] at hne
        exact absurd rfl hne
      · have ht0 : t0 ∈ TURNOS.filter (fun t => st.reservaciones.countP
            (fun r => r.sala_id == s.id && r.fecha == strftime_mdY d && r.turno == t)
              == 0) := by rw [hts2]; exact List.mem_cons_self _ _
        have := List.mem_filter.mp ht0
        exact ⟨t0, this.1, by simpa using this.2⟩
    · rintro ⟨t, ht, hcnt⟩
      have htf : t ∈ TURNOS.filter (fun t => st.reservaciones.countP
          (fun r => r.sala_id == s.id && r.fecha == strftime_mdY d && r.turno == t)
            == 0) := List.mem_filter.mpr ⟨ht, by simpa using hcnt⟩
      refine ⟨s.nombre, s.cupo, _, mem_salas_disponibles.mpr
        ⟨s, hsmem, rfl, rfl, rfl, rfl, ?_⟩⟩
      intro hnil
      rw [hnil] at htf
      cases htf

/-- A joined row carries its reservation unchanged, and the joined room is
the one whose key the reservation references. -/
theorem consultar_join_eq {st : Store} {r : Reservacion}
    {x : Reservacion × Sala × Cliente} (h : consultar_join st r = some x) :
    x.1 = r ∧ x.2.1.id = r.sala_id := by
  unfold consultar_join at h
  rcases hs : st.salas.find? (fun s => s.id == r.sala_id) with _ | s <;> rw [hs] at h
  · cases h
  · rcases hc : st.clientes.find? (fun c => c.id == r.cliente_id) with _ | c <;>
      rw [hc] at h
    · cases h
    · have := List.find?_some hs
      simp only [beq_iff_eq] at this
      cases h
      exact ⟨rfl, this⟩

/-- Shift ordering the specification claims for the date report: position in
the fixed `TURNOS` enumeration (Matutino, Vespertino, Nocturno), then room
key. Stated from the spec's words, to compare against the code's TEXT
ordering. -/
def ordenEnumTurnos (a b : Reservacion × Sala × Cliente) : Prop :=
  TURNOS.indexOf a.1.turno < TURNOS.indexOf b.1.turno
    ∨ (a.1.turno = b.1.turno ∧ a.2.1.id ≤ b.2.1.id)

instance : DecidableRel ordenEnumTurnos := fun a b => by
  unfold ordenEnumTurnos; infer_instance

/-- Sample database with three reservations of one room on one date, in the
three shifts. -/
def stC4 : Store :=
  (registrar_insercion
    (registrar_insercion stEj 1 1 "10-20-2026" "Vespertino" "Taller").1
    1 1 "10-20-2026" "Nocturno" "Gala").1

/-- C4 counterexample: on `stC4` the report for 10-20-2026 lists the
Nocturno row before the Vespertino row — SQLite orders the TEXT shift
column, and "Nocturno" < "Vespertino" as text — so the rows are not in the
claimed `TURNOS` enumeration order (Matutino, Vespertino, Nocturno). -/
theorem consultar_orden_contraejemplo :
    ((consultar_reservaciones stC4 ⟨2026, 10, 20⟩).map fun x => x.1.turno)
        = ["Matutino", "Nocturno", "Vespertino"]
      ∧ ¬ List.Pairwise ordenEnumTurnos (consultar_reservaciones stC4 ⟨2026, 10, 20⟩) := by
  constructor
  · decide
  · decide

/-- C4 amended: the date report contains exactly the reservations of the
day joined with their room and client, ordered by the shift column in
SQLite TEXT order (which places Nocturno before Vespertino) and then by
room key; the joined room's key is the reservation's. -/
theorem consultar_reservaciones_orden_texto (st : Store) (d : Fecha) :
    (consultar_reservaciones st d).Perm
        ((st.reservaciones.filter fun r => r.fecha == strftime_mdY d).filterMap
          (consultar_join st))
      ∧ List.Pairwise (fun a b => ordenConsulta a.1 b.1) (consultar_reservaciones st d)
      ∧ ∀ x ∈ consultar_reservaciones st d, x.2.1.id = x.1.sala_id := by
  refine ⟨List.Perm.filterMap _ (List.perm_insertionSort _ _), ?_, ?_⟩
  · apply List.Pairwise.filterMap (consultar_join st)
      (fun a b hab x hx y hy => ?_)
      (List.sorted_insertionSort ordenConsulta
        (st.reservaciones.filter fun r => r.fecha == strftime_mdY d))
    rw [(consultar_join_eq hx).1, (consultar_join_eq hy).1]
    exact hab
  · intro x hx
    obtain ⟨r, _, hjoin⟩ := List.mem_filterMap.mp hx
    obtain ⟨h1, h2⟩ := consultar_join_eq hjoin
    rw [h2, h1]

/-- Sample database with one reservation dated 12-31-2024. -/
def stC5 : Store :=
  (registrar_insercion
    (registrar_sala_insert
      (registrar_cliente_insert ⟨[], [], [], 1, 1, 1⟩ "Ana" "Lopez") "Magna" 10)
    1 1 "12-31-2024" "Matutino" "Cena").1

/-- C5 counterexample: the range 12-30-2024 .. 01-05-2025 is accepted by the
prompt (`hasta >= desde` as calendar dates) and the stored reservation
dated 12-31-2024 lies inside the calendar interval, yet the BETWEEN query
on the TEXT column returns no row at all: as text, "12-30-2024" comes after
"01-05-2025". -/
theorem editar_rango_contraejemplo :
    fechaBle ⟨2024, 12, 30⟩ ⟨2025, 1, 5⟩ = true
      ∧ (∃ r ∈ stC5.reservaciones, r.fecha = strftime_mdY ⟨2024, 12, 31⟩)
      ∧ fechaBle ⟨2024, 12, 30⟩ ⟨2024, 12, 31⟩ = true
      ∧ fechaBle ⟨2024, 12, 31⟩ ⟨2025, 1, 5⟩ = true
      ∧ editar_buscar stC5 ⟨2024, 12, 30⟩ ⟨2025, 1, 5⟩ = [] := by
  refine ⟨by decide, ⟨⟨1, generar_folio 1, 1, 1, "12-31-2024", "Matutino", "Cena"⟩,
    by decide, by decide⟩, by decide, by decide, by decide⟩

/-- C5 amended: a `hasta` strictly before `desde` (as calendar dates) is
rejected and re-asked; for any bounds the query returns exactly the
reservations whose TEXT date lies between the rendered bounds in SQLite
TEXT order — the calendar interval only when text order and calendar order
agree, e.g. within one year — ordered by that TEXT date; and with equal
bounds exactly the rows carrying that date. -/
theorem editar_rango_texto (st : Store) (desde hasta : Fecha) :
    (∀ h rest, fechaBlt h desde = true →
        hasta_loop desde (some h :: rest) = hasta_loop desde rest)
      ∧ (editar_buscar st desde hasta).Perm
          (st.reservaciones.filter fun r =>
            decide ((strftime_mdY desde).data ≤ r.fecha.data)
              && decide (r.fecha.data ≤ (strftime_mdY hasta).data))
      ∧ List.Pairwise ordenFechaTxt (editar_buscar st desde hasta)
      ∧ ∀ r, r ∈ editar_buscar st desde desde
          ↔ (r ∈ st.reservaciones ∧ r.fecha = strftime_mdY desde) := by
  refine ⟨?_, List.perm_insertionSort _ _, List.sorted_insertionSort _ _, ?_⟩
  · intro h rest hlt
    show (if fechaBle desde h then some h else hasta_loop desde rest)
      = hasta_loop desde rest
    rw [if_neg (by unfold fechaBle; rw [hlt]; simp)]
  · intro r
    unfold editar_buscar
    rw [(List.perm_insertionSort ordenFechaTxt _).mem_iff, List.mem_filter]
    simp only [Bool.and_eq_true, decide_eq_true_eq]
    constructor
    · rintro ⟨hmem, hle, hge⟩
      exact ⟨hmem, String.ext (le_antisymm hge hle)⟩
    · rintro ⟨hmem, hfec⟩
      rw [hfec]
      exact ⟨hmem, le_refl _, le_refl _⟩

theorem monthLen_le_31 : ∀ (leap : Bool) (m : Nat), monthLen leap m ≤ 31 := by
  intro leap m
  rcases m with _ | _ | _ | _ | _ | _ | _ | _ | _ | _ | _ | _ | _ | m <;>
    cases leap <;> simp [monthLen]

theorem fechaBlt_nextDay (x : Fecha) : fechaBlt x (nextDay x) = true := by
  unfold nextDay
  by_cases h1 : x.day < monthLen (isLeap x.year) x.month
  · rw [if_pos h1]
    simp [fechaBlt]
  · rw [if_neg h1]
    by_cases h2 : x.month < 12
    · rw [if_pos h2]
      simp [fechaBlt]
    · rw [if_neg h2]
      simp [fechaBlt]

theorem fechaBlt_irrefl (x : Fecha) : fechaBlt x x = false := by
  simp [fechaBlt]

theorem nextDay_ne (x : Fecha) : nextDay x ≠ x := by
  intro h
  have := fechaBlt_nextDay x
  rw [h, fechaBlt_irrefl] at this
  cases this

/-- Weekdays advance cyclically with the successor date. -/
theorem weekday_nextDay {x : Fecha} (h : ValidFecha x) :
    weekday (nextDay x) = (weekday x + 1) % 7 := by
  unfold weekday
  rw [toOrdinal_nextDay h]
  omega

/-- The day after a Sunday is a Monday. -/
theorem lunes_tras_domingo {x : Fecha} (h : ValidFecha x) (hdom : es_domingo x = true) :
    weekday (nextDay x) = 0 := by
  rw [weekday_nextDay h]
  have h6 : weekday x = 6 := by simpa [es_domingo] using hdom
  omega

/-- On valid dates the rendered `MM-DD-YYYY` of the successor differs from
the date's own rendering. -/
theorem strftime_nextDay_ne {x : Fecha} (h : ValidFecha x) :
    strftime_mdY (nextDay x) ≠ strftime_mdY x := by
  intro heq
  have hnext := validFecha_nextDay h
  have h31 := monthLen_le_31 (isLeap x.year) x.month
  have h31b := monthLen_le_31 (isLeap (nextDay x).year) (nextDay x).month
  obtain ⟨_, _, hm, _, hd⟩ := h
  obtain ⟨_, _, hm2, _, hd2⟩ := hnext
  exact nextDay_ne x (strftime_mdY_inj (by omega) (by omega) (by omega) (by omega) heq)

instance : DecidableEq (Except FechaError Fecha) := fun a b =>
  match a, b with
  | .error e, .error f =>
    if h : e = f then isTrue (by rw [h]) else isFalse fun hc => h (by injection hc)
  | .error _, .ok _ => isFalse fun hc => Except.noConfusion hc
  | .ok _, .error _ => isFalse fun hc => Except.noConfusion hc
  | .ok x, .ok y =>
    if h : x = y then isTrue (by rw [h]) else isFalse fun hc => h (by injection hc)

/-- A round of the date loop reports `fechaMuyPronto` exactly when its
parsed date is strictly before the loop's cached `min_fecha`. -/
theorem fecha_iteracion_muyPronto_iff (min_fecha : Fecha) (st : Store) (i : FechaInput) :
    fecha_iteracion min_fecha st i = .error .fechaMuyPronto
      ↔ ∃ d, i.entrada = some d ∧ fechaBlt d min_fecha = true := by
  rcases he : i.entrada with _ | d
  · simp [fecha_iteracion, he]
  · simp only [fecha_iteracion, he]
    by_cases hblt : fechaBlt d min_fecha = true
    · rw [if_pos hblt]
      simp [hblt]
    · rw [if_neg hblt]
      by_cases hdom : (es_domingo d && !i.aceptar) = true
      · rw [if_pos hdom]
        simp [hblt]
      · rw [if_neg hdom]
        by_cases hemp : (salas_disponibles_para_fecha st
            (if es_domingo d then nextDay d else d)).isEmpty = true
        · rw [if_pos hemp]
          simp [hblt]
        · rw [if_neg hemp]
          simp [hblt]

/-- Date-entry iteration as the specification describes it: the lead-time
threshold recomputed from the current date at the moment of that
submission. Stated from the spec's words, to compare with the code's
`fecha_iteracion`, whose threshold is the `min_fecha` computed once before
the loop. -/
def fecha_iteracion_reevaluada (st : Store) (i : FechaInput) : Except FechaError Fecha :=
  fecha_iteracion (solicitar_fecha_minima i.hoy) st i

/-- C3 counterexample: the booking flow begins on 10-12-2026, so
`min_fecha` = 10-14-2026; a retry submitted after midnight, on 10-13-2026,
offering 10-14-2026 is accepted by the code — it compares against the
cached threshold — while the re-evaluated threshold of the claim
(10-15-2026) would reject that date as too soon. -/
theorem fecha_minima_cacheada_contraejemplo :
    solicitar_fecha_minima ⟨2026, 10, 12⟩ = ⟨2026, 10, 14⟩
      ∧ fecha_iteracion (solicitar_fecha_minima ⟨2026, 10, 12⟩) stEj
          ⟨⟨2026, 10, 13⟩, some ⟨2026, 10, 14⟩, false⟩ = .ok ⟨2026, 10, 14⟩
      ∧ fecha_iteracion_reevaluada stEj ⟨⟨2026, 10, 13⟩, some ⟨2026, 10, 14⟩, false⟩
          = .error .fechaMuyPronto
      ∧ fechaBlt ⟨2026, 10, 14⟩ (solicitar_fecha_minima ⟨2026, 10, 13⟩) = true := by
  exact ⟨by decide, by decide, by decide, by decide⟩

/-- C3 amended: within one booking flow every round of the date loop
compares the submitted date against the one `min_fecha` computed before the
loop: the round fails with `fechaMuyPronto` exactly when its parsed date is
strictly before that cached threshold, and its outcome never depends on the
wall-clock date at the moment of submission. -/
theorem fecha_minima_cacheada (min_fecha : Fecha) (st : Store) (i : FechaInput)
    (h : Fecha) :
    (fecha_iteracion min_fecha st i = .error .fechaMuyPronto
        ↔ ∃ d, i.entrada = some d ∧ fechaBlt d min_fecha = true)
      ∧ fecha_iteracion min_fecha st ⟨h, i.entrada, i.aceptar⟩
          = fecha_iteracion min_fecha st i := by
  refine ⟨fecha_iteracion_muyPronto_iff min_fecha st i, ?_⟩
  obtain ⟨h0, e, a⟩ := i
  rfl

/-- C7: against the threshold `hoy + 2 days` of a flow begun on `hoy`, a
submission of exactly `hoy + 1 day` always fails the lead-time check, while
a submission of exactly `hoy + 2 days` never does — and is accepted outright
when it is no Sunday and has availability. -/
theorem limite_plazo_minimo (hoy : Fecha) (st : Store) (i : FechaInput) :
    (i.entrada = some (addDays hoy 1) →
        fecha_iteracion (solicitar_fecha_minima hoy) st i = .error .fechaMuyPronto)
      ∧ (i.entrada = some (addDays hoy 2) →
          fecha_iteracion (solicitar_fecha_minima hoy) st i ≠ .error .fechaMuyPronto
            ∧ (es_domingo (addDays hoy 2) = false →
                (salas_disponibles_para_fecha st (addDays hoy 2)).isEmpty = false →
                fecha_iteracion (solicitar_fecha_minima hoy) st i
                  = .ok (addDays hoy 2))) := by
  have hstep : solicitar_fecha_minima hoy = nextDay (addDays hoy 1) := rfl
  constructor
  · intro he
    exact (fecha_iteracion_muyPronto_iff _ st i).mpr
      ⟨addDays hoy 1, he, by rw [hstep]; exact fechaBlt_nextDay (addDays hoy 1)⟩
  · intro he
    have hblt : fechaBlt (addDays hoy 2) (solicitar_fecha_minima hoy) = false :=
      fechaBlt_irrefl (addDays hoy 2)
    constructor
    · intro hc
      obtain ⟨d2, hd2, hblt2⟩ := (fecha_iteracion_muyPronto_iff _ st i).mp hc
      rw [he] at hd2
      cases hd2
      rw [hblt] at hblt2
      cases hblt2
    · intro hdom hdisp
      simp only [fecha_iteracion, he]
      rw [if_neg (by rw [hblt]; exact Bool.false_ne_true),
        if_neg (by rw [hdom]; simp)]
      have hinner : (if es_domingo (addDays hoy 2) then nextDay (addDays hoy 2)
          else addDays hoy 2) = addDays hoy 2 :=
        if_neg (by rw [hdom]; exact Bool.false_ne_true)
      rw [hinner, if_neg (by rw [hdisp]; exact Bool.false_ne_true)]

theorem fecha_loop_cons_ok {min_fecha : Fecha} {st : Store} {i : FechaInput}
    {rest : List FechaInput} {x : Fecha}
    (h : fecha_iteracion min_fecha st i = .ok x) :
    fecha_loop min_fecha st (i :: rest) = some x := by
  unfold fecha_loop
  rw [h]

theorem fecha_loop_cons_error {min_fecha : Fecha} {st : Store} {i : FechaInput}
    {rest : List FechaInput} {e : FechaError}
    (h : fecha_iteracion min_fecha st i = .error e) :
    fecha_loop min_fecha st (i :: rest) = fecha_loop min_fecha st rest := by
  show (match fecha_iteracion min_fecha st i with
    | .ok d => some d
    | .error _ => fecha_loop min_fecha st rest) = fecha_loop min_fecha st rest
  rw [h]

/-- Outcome of a date-loop round whose submission is a Sunday at or past
the threshold: declining the Monday proposal re-prompts, accepting it (with
availability on the Monday) accepts the Monday. -/
theorem fecha_iteracion_domingo {min_fecha : Fecha} {st : Store} {i : FechaInput}
    {d : Fecha} (hent : i.entrada = some d) (hdom : es_domingo d = true)
    (hmin : fechaBlt d min_fecha = false) :
    (i.aceptar = false → fecha_iteracion min_fecha st i = .error .domingoRechazado)
      ∧ (i.aceptar = true →
          (salas_disponibles_para_fecha st (nextDay d)).isEmpty = false →
          fecha_iteracion min_fecha st i = .ok (nextDay d)) := by
  constructor
  · intro hacc
    simp only [fecha_iteracion, hent]
    rw [if_neg (by rw [hmin]; exact Bool.false_ne_true),
      if_pos (by rw [hdom, hacc]; rfl)]
  · intro hacc hdisp
    simp only [fecha_iteracion, hent]
    rw [if_neg (by rw [hmin]; exact Bool.false_ne_true),
      if_neg (by rw [hdom, hacc]; simp)]
    have hinner : (if es_domingo d then nextDay d else d) = nextDay d := if_pos hdom
    rw [hinner, if_neg (by rw [hdisp]; exact Bool.false_ne_true)]

/-- A completed booking flow passed through the date loop and ended in a
successful guarded insert of the accepted date's rendering. -/
theorem registrar_flujo_exito {st : Store} {hoy : Fecha} {cliente_id : Nat}
    {fechas : List FechaInput} {salas_in : List Nat} {turnos_in eventos_in : List String}
    {st2 : Store} {folio : String}
    (h : registrar_flujo st hoy cliente_id fechas salas_in turnos_in eventos_in
      = (st2, some folio)) :
    ∃ dd sala turno ev,
      fecha_loop (solicitar_fecha_minima hoy) st fechas = some dd
        ∧ registrar_insercion st cliente_id sala (strftime_mdY dd) turno ev
            = (st2, .exito folio) := by
  unfold registrar_flujo at h
  by_cases hcli : (!(listar_clientes st).any fun c => c.id == cliente_id) = true
  · rw [if_pos hcli] at h
    simp at h
  · rw [if_neg hcli] at h
    rcases hloop : fecha_loop (solicitar_fecha_minima hoy) st fechas with _ | dd <;>
      simp only [hloop] at h
    · simp at h
    · rcases hsala : salas_in.find? (fun c =>
          (salas_disponibles_para_fecha st dd).any fun s => s.1 == c) with _ | sala <;>
        simp only [hsala] at h
      · simp at h
      · rcases hent : (salas_disponibles_para_fecha st dd).find?
            (fun s => s.1 == sala) with _ | s <;> simp only [hent] at h
        · simp at h
        · rcases hturno : turnos_in.find? (fun t => s.2.2.2.contains t) with _ | turno <;>
            simp only [hturno] at h
          · simp at h
          · rcases hev : eventos_in.find? (fun e => !(e == "")) with _ | ev <;>
              simp only [hev] at h
            · simp at h
            · rcases hins : registrar_insercion st cliente_id sala (strftime_mdY dd)
                  turno ev with ⟨st2x, res⟩
              cases res with
              | exito foliox =>
                rw [hins] at h
                simp only [Prod.mk.injEq, Option.some.injEq] at h
                exact ⟨dd, sala, turno, ev, rfl, by rw [hins, h.1, h.2]⟩
              | conflictoInsert => rw [hins] at h; simp at h
              | conflictoUpdate => rw [hins] at h; simp at h

/-- C6: a Sunday submission that passed the lead-time check triggers the
Monday proposal: declining it consumes the round and loops back to date
entry (no hard failure), while accepting it (with availability on the
Monday) makes the loop accept `d + 1 day` — a Monday — and a booking flow
completed from that round stores a reservation dated that Monday, never the
Sunday. -/
theorem domingo_redirige_a_lunes {st : Store} (hst : Reachable st)
    {min_fecha d : Fecha} {i : FechaInput}
    (hent : i.entrada = some d) (hdom : es_domingo d = true)
    (hmin : fechaBlt d min_fecha = false) (hval : ValidFecha d) :
    (i.aceptar = false → ∀ rest,
        fecha_loop min_fecha st (i :: rest) = fecha_loop min_fecha st rest)
      ∧ (i.aceptar = true →
          (salas_disponibles_para_fecha st (nextDay d)).isEmpty = false →
            weekday (nextDay d) = 0
              ∧ fecha_iteracion min_fecha st i = .ok (nextDay d)
              ∧ ∀ hoy cliente_id salas_in turnos_in eventos_in rest st2 folio,
                  min_fecha = solicitar_fecha_minima hoy →
                  registrar_flujo st hoy cliente_id (i :: rest) salas_in turnos_in
                      eventos_in = (st2, some folio) →
                  ∃ row : Reservacion,
                    st2.reservaciones = st.reservaciones ++ [row]
                      ∧ row.fecha = strftime_mdY (nextDay d)
                      ∧ row.fecha ≠ strftime_mdY d) := by
  obtain ⟨hdecl, hacc⟩ := @fecha_iteracion_domingo min_fecha st i d hent hdom hmin
  constructor
  · intro hno rest
    exact fecha_loop_cons_error (hdecl hno)
  · intro hsi hdisp
    have hiter := hacc hsi hdisp
    refine ⟨lunes_tras_domingo hval hdom, hiter, ?_⟩
    intro hoy cliente_id salas_in turnos_in eventos_in rest st2 folio heq hflow
    obtain ⟨dd, sala, turno, ev, hloop, hins⟩ := registrar_flujo_exito hflow
    have hdd : dd = nextDay d := by
      rw [← heq] at hloop
      rw [fecha_loop_cons_ok hiter] at hloop
      exact (Option.some.injEq _ _ ▸ hloop).symm
    subst hdd
    by_cases hdup : (st.reservaciones.any fun r =>
        r.sala_id == sala && r.fecha == strftime_mdY (nextDay d)
          && r.turno == turno) = true
    · rw [registrar_insercion_conflicto hdup] at hins
      simp only [Prod.mk.injEq] at hins
      cases hins.2
    · rw [registrar_insercion_exito (reachable_wf hst)
        (Bool.eq_false_iff.mpr hdup)] at hins
      simp only [Prod.mk.injEq] at hins
      refine ⟨⟨st.nextResId, generar_folio st.nextResId, cliente_id, sala,
        strftime_mdY (nextDay d), turno, ev⟩, ?_, rfl, strftime_nextDay_ne hval⟩
      rw [← hins.1]

/-- C6 witness: the Sunday 10-18-2026 on the sample store, proposal
accepted; the room is free on Monday 10-19-2026. -/
theorem domingo_redirige_a_lunes_witness :
    ((⟨⟨2026, 10, 12⟩, some ⟨2026, 10, 18⟩, true⟩ : FechaInput).aceptar = false →
        ∀ rest, fecha_loop ⟨2026, 10, 14⟩ stEj
            (⟨⟨2026, 10, 12⟩, some ⟨2026, 10, 18⟩, true⟩ :: rest)
          = fecha_loop ⟨2026, 10, 14⟩ stEj rest)
      ∧ ((⟨⟨2026, 10, 12⟩, some ⟨2026, 10, 18⟩, true⟩ : FechaInput).aceptar = true →
          (salas_disponibles_para_fecha stEj (nextDay ⟨2026, 10, 18⟩)).isEmpty = false →
            weekday (nextDay ⟨2026, 10, 18⟩) = 0
              ∧ fecha_iteracion ⟨2026, 10, 14⟩ stEj
                  ⟨⟨2026, 10, 12⟩, some ⟨2026, 10, 18⟩, true⟩ = .ok (nextDay ⟨2026, 10, 18⟩)
              ∧ ∀ hoy cliente_id salas_in turnos_in eventos_in rest st2 folio,
                  (⟨2026, 10, 14⟩ : Fecha) = solicitar_fecha_minima hoy →
                  registrar_flujo stEj hoy cliente_id
                      (⟨⟨2026, 10, 12⟩, some ⟨2026, 10, 18⟩, true⟩ :: rest)
                      salas_in turnos_in eventos_in = (st2, some folio) →
                  ∃ row : Reservacion,
                    st2.reservaciones = stEj.reservaciones ++ [row]
                      ∧ row.fecha = strftime_mdY (nextDay ⟨2026, 10, 18⟩)
                      ∧ row.fecha ≠ strftime_mdY ⟨2026, 10, 18⟩) :=
  domingo_redirige_a_lunes reachable_stEj (by decide) (by decide) (by decide) (by decide)
